import Mathlib

/-!
Shallow embedding of `SpaceTimeRotatingFileHandler.py` together with the
relevant inherited methods of `logging.handlers.RotatingFileHandler` and
`logging.handlers.TimedRotatingFileHandler` (CPython 3.11), over an explicit
file-system model.

Modelling conventions:
* the file system is a list of (name, content) pairs, kept in creation
  order (a renamed file is re-appended, so the list order is the creation
  order of the current names: oldest first);
* machine time is `Int` (POSIX seconds); `time.localtime(..).tm_isdst` is an
  oracle `dst : Int → Bool`; `time.strftime(suffix, ...)` is an oracle
  `Int → String` (one for localtime, one for gmtime);
* the result of the inherited `computeRollover(now)` is passed in as an
  oracle value `cr : Int`;
* the two `while` loops of `doRollover` take explicit fuel; a run that does
  not exit its loop within the fuel is `none` (models divergence /
  nontermination);
* observable effects are recorded in a trace of events: file writes through
  the handler's stream, console writes (`print`), renames, removes, opens.
-/

namespace SpaceTime

/-- File-system model: association list of (file name, file content), in
creation order (oldest entry first). -/
abbrev Fs := List (String × String)

/-- Does a file with this name exist (`os.path.exists`)? -/
def fsExists (fs : Fs) (n : String) : Bool :=
  fs.any (fun p => p.1 == n)

/-- Delete a file (`os.remove`). -/
def fsRemove (fs : Fs) (n : String) : Fs :=
  fs.filter (fun p => p.1 != n)

/-- Content of a file, if it exists. -/
def fsLookup (fs : Fs) (n : String) : Option String :=
  (fs.find? (fun p => p.1 == n)).map Prod.snd

/-- Rename a file (`os.rename`): the content moves to the new name, which is
appended as the most recently created name. Missing source leaves the file
system unchanged (callers guard on existence, as `BaseRotatingHandler.rotate`
does). -/
def fsRename (fs : Fs) (src dst : String) : Fs :=
  match fsLookup fs src with
  | none => fs
  | some c => fsRemove fs src ++ [(dst, c)]

/-- Opening a file in append mode creates it empty when missing and keeps it
unchanged when present. -/
def fsTouch (fs : Fs) (n : String) : Fs :=
  if fsExists fs n then fs else fs ++ [(n, "")]

/-- Append bytes to an existing file's content (a stream write). -/
def fsAppend (fs : Fs) (n : String) (s : String) : Fs :=
  fs.map (fun p => if p.1 == n then (p.1, p.2 ++ s) else p)

/-- The names present in the file system. -/
def fsNames (fs : Fs) : List String :=
  fs.map Prod.fst

/-- Python's `str.startswith`, over the character lists (kernel-computable
form of `String.isPrefixOf`). -/
def strHasPre (pre s : String) : Bool :=
  pre.data.isPrefixOf s.data

/-- Python's `str.upper`, over the character lists (the unit strings are
ASCII). -/
def strToUpper (s : String) : String :=
  ⟨s.data.map Char.toUpper⟩

/-- Backup (archive) files of a destination: every file whose name starts
with the base file name followed by a dot, in creation order (oldest
first). -/
def backupsOf (fs : Fs) (base : String) : List String :=
  (fsNames fs).filter (fun n => strHasPre (base ++ ".") n)

/-- Observable events of a handler operation. -/
inductive Ev where
  /-- bytes written to the handler's stream (the active segment) -/
  | fileWrite (s : String)
  /-- text printed to the console (`print`) -/
  | consoleWrite (s : String)
  /-- a file renamed from `src` to `dst` -/
  | renameEv (src dst : String)
  /-- a file deleted -/
  | removeEv (n : String)
  /-- the base file (re)opened as the stream -/
  | openEv (n : String)
deriving DecidableEq

/-- The file writes of a trace, in order. -/
def fileWrites (tr : List Ev) : List String :=
  tr.filterMap (fun e => match e with | .fileWrite s => some s | _ => none)

/-- The console writes of a trace, in order. -/
def consoleWrites (tr : List Ev) : List String :=
  tr.filterMap (fun e => match e with | .consoleWrite s => some s | _ => none)

/-- The renames of a trace, in order. -/
def renamesOf (tr : List Ev) : List (String × String) :=
  tr.filterMap (fun e => match e with | .renameEv a b => some (a, b) | _ => none)

/-- The removes of a trace, in order. -/
def removesOf (tr : List Ev) : List String :=
  tr.filterMap (fun e => match e with | .removeEv n => some n | _ => none)

/-- Handler state after construction: the attributes of
`SpaceTimeRotatingFileHandler` that `doRollover` / `shouldRollover` read. -/
structure Handler where
  baseFilename : String
  mode : String
  maxBytes : Int
  backupCount : Int
  whenU : String
  interval : Int
  utc : Bool
  header : Option String
  delay : Bool
  rolloverAt : Int
  streamOpen : Bool
deriving DecidableEq

/-- Python's `"%03d" % n`: the decimal digits of `n`, left-padded with zeros
to width 3. -/
def pad3 (n : Nat) : String :=
  if n < 10 then "00" ++ toString n
  else if n < 100 then "0" ++ toString n
  else toString n

/-- The numbered backup name `"%s.%03d" % (dfn, k)` (src line 72/75);
`rotation_filename` with the default `namer = None` is the identity. -/
def numberedName (dfn : String) (k : Nat) : String :=
  dfn ++ "." ++ pad3 k

/-- The disambiguation search of `doRollover` (src lines 72-75):
`sfn` starts as `dfn.001`; while a file named `sfn` exists, `sfn` is
recomputed as `"%s.%03d" % (dfn, rotation_number)` — and `rotation_number`
is initialised to 1 and never changed, so every iteration recomputes the
same name `dfn.001`. The loop runs on explicit fuel; `none` means the fuel
was exhausted with the loop still running. -/
def searchFreeName (fs : Fs) (dfn : String) : Nat → Option String :=
  go
where
  /-- one loop iteration at the current `sfn` -/
  go : Nat → Option String
    | 0 => if fsExists fs (numberedName dfn 1) then none else some (numberedName dfn 1)
    | fuel + 1 =>
      if fsExists fs (numberedName dfn 1) then go fuel
      else some (numberedName dfn 1)

/-- Archive name `dfn` for the segment being closed (src lines 53-69):
the base name plus the formatted time `rolloverAt - interval`, via
`gmtime` when `utc`, else via `localtime` with the one-hour adjustment when
the DST flag at `t` differs from the DST flag now. `fmtL` and `fmtU` are
the `time.strftime(self.suffix, ...)` oracles for localtime and gmtime. -/
def archiveName (base : String) (utc : Bool) (dst : Int → Bool)
    (fmtL fmtU : Int → String) (now rolloverAt interval : Int) : String :=
  let t := rolloverAt - interval
  if utc then base ++ "." ++ fmtU t
  else
    let dstNow := dst now
    let dstThen := dst t
    let t2 :=
      if dstNow != dstThen then
        (if dstNow then t + 3600 else t - 3600)
      else t
    base ++ "." ++ fmtL t2

/-- The schedule bump loop of `doRollover` (src lines 89-91):
`newRolloverAt = computeRollover(currentTime)` (passed in as the start
value), then `while newRolloverAt <= currentTime: newRolloverAt += interval`.
Fuel-bounded; `none` means the loop was still running when the fuel ran
out. -/
def bumpRollover (now interval : Int) : Nat → Int → Option Int
  | 0, r => if r ≤ now then none else some r
  | fuel + 1, r => if r ≤ now then bumpRollover now interval fuel (r + interval) else some r

/-- The complete next-`rolloverAt` computation at the end of `doRollover`
(src lines 89-101): the bump loop, then the DST compensation — applied when
`when == 'MIDNIGHT' or when.startswith('W')` and not `utc`, comparing the
DST flag at the CURRENT time (`dstNow`, sampled at the start of the
rollover call, src line 55) with the DST flag at the new rollover time. -/
def nextRolloverAt (whenU : String) (utc : Bool) (dst : Int → Bool)
    (now interval cr : Int) (fuel : Nat) : Option Int :=
  match bumpRollover now interval fuel cr with
  | none => none
  | some r =>
    if (whenU == "MIDNIGHT" || strHasPre "W" whenU) && !utc then
      let dstNow := dst now
      let dstAtRollover := dst r
      if dstNow != dstAtRollover then
        (if !dstNow then some (r - 3600) else some (r + 3600))
      else some r
    else some r

/-- The next-`rolloverAt` computation as the spec's words describe it, for
comparison with `nextRolloverAt`: the spec says the compensation "compares
the DST flag sampled at the start of the segment being closed" — the
segment being closed started at `rolloverAt - interval` — "against the DST
flag sampled at the newly computed nextTime". Everything else follows the
code. -/
def specNextRolloverAt (whenU : String) (utc : Bool) (dst : Int → Bool)
    (now interval oldRolloverAt cr : Int) (fuel : Nat) : Option Int :=
  match bumpRollover now interval fuel cr with
  | none => none
  | some r =>
    if (whenU == "MIDNIGHT" || strHasPre "W" whenU) && !utc then
      let dstThen := dst (oldRolloverAt - interval)
      let dstAtRollover := dst r
      if dstThen != dstAtRollover then
        (if !dstThen then some (r - 3600) else some (r + 3600))
      else some r
    else some r

/-- The DST adjustment that `nextRolloverAt` adds to the bumped value
(src lines 92-100), as a separate quantity. -/
def dstAdjust (whenU : String) (utc : Bool) (dst : Int → Bool) (now r : Int) : Int :=
  if (whenU == "MIDNIGHT" || strHasPre "W" whenU) && !utc then
    if dst now != dst r then (if !(dst now) then -3600 else 3600) else 0
  else 0

/-- Modelled from the spec: the pruning helper `getFilesToDelete` is
inherited `TimedRotatingFileHandler` code, outside `src/`. The spec says
"delete backups beyond the retention count (oldest first by the archive's
timestamp/index) so that at most N remain"; in this model the backup list
is in creation order, oldest first, so the files to delete are the leading
ones beyond the newest `n`. Like the library helper, it deletes nothing
when no more than `n` backups exist. -/
def getFilesToDelete (fs : Fs) (base : String) (n : Int) : List String :=
  let bs := backupsOf fs base
  if bs.length ≤ n.toNat then [] else bs.take (bs.length - n.toNat)

/-- Delete the listed files one by one (the `for s in ...: os.remove(s)`
loop, src lines 77-78). -/
def removeAll (fs : Fs) (names : List String) : Fs :=
  names.foldl fsRemove fs

/-- `BaseRotatingHandler.rotate` with the default `rotator = None`: rename
`src` to `dst` if `src` exists, else do nothing. -/
def rotateFile (fs : Fs) (src dst : String) : Fs × List Ev :=
  if fsExists fs src then (fsRename fs src dst, [Ev.renameEv src dst])
  else (fs, [])

/-- The archiving part of `doRollover` (src lines 71-82): with retention
> 0, the disambiguation search, the rename and the pruning loop; with
retention 0, delete any existing file at `dfn` and rename the base file to
`dfn`. -/
def archiveStep (h : Handler) (fs : Fs) (dfn : String) (fuelN : Nat) :
    Option (Fs × List Ev) :=
  if h.backupCount > 0 then
    match searchFreeName fs dfn fuelN with
    | none => none
    | some sfn =>
      some (removeAll (rotateFile fs h.baseFilename sfn).1
              (getFilesToDelete (rotateFile fs h.baseFilename sfn).1
                h.baseFilename h.backupCount),
            (rotateFile fs h.baseFilename sfn).2 ++
              (getFilesToDelete (rotateFile fs h.baseFilename sfn).1
                h.baseFilename h.backupCount).map Ev.removeEv)
  else
    some ((rotateFile (if fsExists fs dfn then fsRemove fs dfn else fs)
             h.baseFilename dfn).1,
          (if fsExists fs dfn then [Ev.removeEv dfn] else []) ++
            (rotateFile (if fsExists fs dfn then fsRemove fs dfn else fs)
              h.baseFilename dfn).2)

/-- The reopen-and-header part of `doRollover` (src lines 83-87): unless
`delay`, reopen the stream (creating the base file when missing), and when
a header is configured `print("Hi!")` to the console and write the header
plus a newline to the stream. Returns the file system, the events, and
whether the stream is open afterwards. -/
def reopenStep (h : Handler) (fs : Fs) : Fs × List Ev × Bool :=
  if h.delay then (fs, [], false)
  else
    match h.header with
    | some hd =>
      (fsAppend (fsTouch fs h.baseFilename) h.baseFilename (hd ++ "\n"),
       [Ev.openEv h.baseFilename, Ev.consoleWrite "Hi!", Ev.fileWrite (hd ++ "\n")],
       true)
    | none => (fsTouch fs h.baseFilename, [Ev.openEv h.baseFilename], true)

/-- `SpaceTimeRotatingFileHandler.doRollover` (src lines 49-101) over the
file-system model. Oracles: `dst` for `tm_isdst`, `fmtL`/`fmtU` for
`strftime` under localtime/gmtime, `now` for `int(time.time())`, `cr` for
the inherited `computeRollover(currentTime)`. `fuelN` bounds the
name-search loop and `fuelB` the schedule bump loop; `none` models a run
whose loop did not exit within its fuel. Returns the updated handler, the
updated file system and the event trace. -/
def doRollover (h : Handler) (fs : Fs) (dst : Int → Bool)
    (fmtL fmtU : Int → String) (now cr : Int) (fuelN fuelB : Nat) :
    Option (Handler × Fs × List Ev) :=
  match archiveStep h fs
      (archiveName h.baseFilename h.utc dst fmtL fmtU now h.rolloverAt h.interval)
      fuelN with
  | none => none
  | some (fsA, trA) =>
    match nextRolloverAt h.whenU h.utc dst now h.interval cr fuelB with
    | none => none
    | some v =>
      some ({ h with streamOpen := (reopenStep h fsA).2.2, rolloverAt := v },
            (reopenStep h fsA).1, trA ++ (reopenStep h fsA).2.1)

/-- `RotatingFileHandler.shouldRollover` (inherited, CPython 3.11) as a pure
predicate: the base file is assumed to be a regular file (the bpo-45401
check is vacuous in this model) and the stream open with `tell()` equal to
`segSize`; `msgLen` is `len("%s\n" % self.format(record))`, the byte length
about to be written. Fires only when `maxBytes > 0`, at
`tell() + len(msg) >= maxBytes`. -/
def rotatingShouldRollover (maxBytes segSize msgLen : Int) : Bool :=
  if maxBytes > 0 then decide (segSize + msgLen ≥ maxBytes) else false

/-- `TimedRotatingFileHandler.shouldRollover` (inherited, CPython 3.11) as a
pure predicate: fires when `int(time.time()) >= rolloverAt` (regular-file
check again vacuous in this model). -/
def timedShouldRollover (now rolloverAt : Int) : Bool :=
  decide (now ≥ rolloverAt)

/-- `SpaceTimeRotatingFileHandler.shouldRollover` (src lines 103-104): the
logical `or` of the two inherited predicates. -/
def shouldRollover (h : Handler) (segSize msgLen now : Int) : Bool :=
  rotatingShouldRollover h.maxBytes segSize msgLen || timedShouldRollover now h.rolloverAt

/-- Constructor arguments of `SpaceTimeRotatingFileHandler.__init__`
(src line 30). -/
structure Config where
  filename : String
  mode : String
  maxBytes : Int
  backupCount : Int
  delay : Bool
  whenArg : String
  interval : Int
  utc : Bool
  header : Option String
deriving DecidableEq

/-- The `when`-dispatch of `TimedRotatingFileHandler.__init__` (inherited,
CPython 3.11): seconds per unit for the (already upper-cased) unit string,
`none` for the cases that `raise ValueError`. -/
def whenSeconds (w : String) : Option Int :=
  if w == "S" then some 1
  else if w == "M" then some 60
  else if w == "H" then some 3600
  else if w == "D" || w == "MIDNIGHT" then some 86400
  else if strHasPre "W" w then
    match w.data with
    | [_, c] => if '0' ≤ c && c ≤ '6' then some 604800 else none
    | _ => none
  else none

/-- The stream openings at construction: `RotatingFileHandler.__init__`
opens the stream unless `delay` (with mode forced to `'a'` when
`maxBytes > 0`, so a mode of `'w'` only truncates when the size trigger is
off), and `TimedRotatingFileHandler.__init__` then opens it a second time,
always in append mode. -/
def initOpenFs (cfg : Config) (fs : Fs) : Fs × List Ev :=
  if cfg.delay then (fs, [])
  else if (if cfg.maxBytes > 0 then "a" else cfg.mode) == "w" then
    (fsTouch (fsRemove fs cfg.filename ++ [(cfg.filename, "")]) cfg.filename,
     [Ev.openEv cfg.filename, Ev.openEv cfg.filename])
  else
    (fsTouch (fsTouch fs cfg.filename) cfg.filename,
     [Ev.openEv cfg.filename, Ev.openEv cfg.filename])

/-- The handler state the two inherited initialisers leave behind: mode is
forced to `'a'` (the timed initialiser always passes `'a'`), `when` is
upper-cased, the interval is the unit's seconds times the requested count,
`rolloverAt` is the inherited `computeRollover` result (oracle `cr0`). -/
def initHandler (cfg : Config) (secs cr0 : Int) : Handler :=
  { baseFilename := cfg.filename, mode := "a", maxBytes := cfg.maxBytes,
    backupCount := cfg.backupCount, whenU := strToUpper cfg.whenArg,
    interval := secs * cfg.interval, utc := cfg.utc, header := cfg.header,
    delay := cfg.delay, rolloverAt := cr0, streamOpen := !cfg.delay }

/-- `SpaceTimeRotatingFileHandler.__init__` (src lines 30-47) over the
file-system model. It stores the header, runs the two inherited
initialisers (see `initOpenFs` and `initHandler`; the timed one raises
`ValueError`, here `none`, only for an unrecognised unit string), and
finally writes the header plus a newline when `delay` is unset, the stream
is open and a header was given. No other argument is validated. -/
def init (cfg : Config) (fs : Fs) (cr0 : Int) : Option (Handler × Fs × List Ev) :=
  match whenSeconds (strToUpper cfg.whenArg) with
  | none => none
  | some secs =>
    match cfg.header with
    | some hd =>
      if cfg.delay then
        some (initHandler cfg secs cr0, (initOpenFs cfg fs).1, (initOpenFs cfg fs).2)
      else
        some (initHandler cfg secs cr0,
              fsAppend (initOpenFs cfg fs).1 cfg.filename (hd ++ "\n"),
              (initOpenFs cfg fs).2 ++ [Ev.fileWrite (hd ++ "\n")])
    | none =>
      some (initHandler cfg secs cr0, (initOpenFs cfg fs).1, (initOpenFs cfg fs).2)

/-! Concrete sample data for the concrete runs referenced by witnesses and
counterexamples. -/

/-- A DST oracle that is constantly off. -/
def dstOff : Int → Bool := fun _ => false

/-- A concrete `strftime` oracle distinguishing the times that occur in the
concrete runs (two consecutive seconds-unit segments). -/
def fmtNum : Int → String :=
  fun t => if t = 9 then "9" else if t = 10 then "10" else "z"

/-- A concrete handler in overwrite mode (retention 0), seconds unit, UTC. -/
def hRet0 : Handler :=
  ⟨"b", "a", 10, 0, "S", 1, true, none, false, 10, true⟩

/-- A concrete handler with retention 2 and a header. -/
def hRet2 : Handler :=
  ⟨"b", "a", 10, 2, "S", 1, true, some "HDR", false, 10, true⟩

/-- A concrete handler with retention 3 and a header. -/
def hRet3 : Handler :=
  ⟨"b", "a", 10, 3, "S", 1, true, some "HDR", false, 10, true⟩

/-- A concrete construction configuration with negative size threshold,
negative retention count and negative interval. -/
def cfgNeg : Config :=
  ⟨"b", "a", -5, -2, false, "d", -7, false, some "HDR"⟩

/-- A concrete construction configuration with a header. -/
def cfgHdr : Config :=
  ⟨"base.log", "a", 50, 2, false, "D", 7, false, some "HDR"⟩

/-! Helper lemmas about the loops. -/

theorem searchFreeName_of_free (fs : Fs) (dfn : String) (fuel : Nat)
    (h : fsExists fs (numberedName dfn 1) = false) :
    searchFreeName fs dfn fuel = some (numberedName dfn 1) := by
  cases fuel <;> simp [searchFreeName, searchFreeName.go, h]

theorem searchFreeName_some (fs : Fs) (dfn : String) (fuel : Nat) (sfn : String)
    (h : searchFreeName fs dfn fuel = some sfn) :
    sfn = numberedName dfn 1 ∧ fsExists fs (numberedName dfn 1) = false := by
  induction fuel with
  | zero =>
    by_cases hx : fsExists fs (numberedName dfn 1) = true
    · simp [searchFreeName, searchFreeName.go, hx] at h
    · simp only [Bool.not_eq_true] at hx
      simp [searchFreeName, searchFreeName.go, hx] at h
      exact ⟨h.symm, hx⟩
  | succ n ih =>
    by_cases hx : fsExists fs (numberedName dfn 1) = true
    · simp only [searchFreeName, searchFreeName.go, hx, if_true] at h
      exact ih h
    · simp only [Bool.not_eq_true] at hx
      simp [searchFreeName, searchFreeName.go, hx] at h
      exact ⟨h.symm, hx⟩

theorem bumpRollover_gt (now interval : Int) (fuel : Nat) (r v : Int)
    (h : bumpRollover now interval fuel r = some v) : now < v := by
  induction fuel generalizing r with
  | zero =>
    by_cases hr : r ≤ now
    · simp [bumpRollover, hr] at h
    · simp [bumpRollover, hr] at h
      omega
  | succ n ih =>
    by_cases hr : r ≤ now
    · simp only [bumpRollover, hr, if_true] at h
      exact ih _ h
    · simp [bumpRollover, hr] at h
      omega

theorem nextRolloverAt_eq (whenU : String) (utc : Bool) (dst : Int → Bool)
    (now interval cr : Int) (fuel : Nat) :
    nextRolloverAt whenU utc dst now interval cr fuel =
      (bumpRollover now interval fuel cr).map
        (fun r => r + dstAdjust whenU utc dst now r) := by
  unfold nextRolloverAt dstAdjust
  cases hb : bumpRollover now interval fuel cr with
  | none => rfl
  | some r =>
    simp only [Option.map_some']
    by_cases hw : ((whenU == "MIDNIGHT" || strHasPre "W" whenU) && !utc) = true
    · rw [if_pos hw, if_pos hw]
      cases hn : dst now <;> cases hr : dst r <;> simp [hn, hr] <;> omega
    · rw [if_neg hw, if_neg hw]
      simp

/-- C1: the claim says the disambiguation search tries increasing numeric
disambiguators and either finds a free `dfn.NNN` or fails after a fixed
bound with NamingCollisionError. In the code `rotation_number` is never
incremented, so whenever `dfn.001` already exists the loop recomputes the
same name forever: for every fuel bound the search is still running — it
neither renames nor signals any error. -/
theorem c1_search_never_terminates (fs : Fs) (dfn : String) (fuel : Nat)
    (h : fsExists fs (numberedName dfn 1) = true) :
    searchFreeName fs dfn fuel = none := by
  induction fuel with
  | zero => simp [searchFreeName, searchFreeName.go, h]
  | succ n ih => simpa [searchFreeName, searchFreeName.go, h] using ih

/-- Witness for C1 at a concrete directory state: `dfn.001` exists and the
search is still running after 500 iterations. -/
theorem c1_search_never_terminates_witness :
    fsExists [("b.X.001", "x")] (numberedName "b.X" 1) = true ∧
      searchFreeName [("b.X.001", "x")] "b.X" 500 = none :=
  ⟨by decide, c1_search_never_terminates [("b.X.001", "x")] "b.X" 500 (by decide)⟩

/-- C3, counterexample: the claim's size sub-condition is strict
("exceeds"), but the inherited size check fires already at equality
(`tell() + len(msg) >= maxBytes`). With threshold 10, segment size 4 and a
pending 6-byte message, the code rotates although neither claimed
sub-condition (4 + 6 > 10, or 0 >= 100) holds. -/
theorem c3_cex :
    shouldRollover
        { baseFilename := "b", mode := "a", maxBytes := 10, backupCount := 0,
          whenU := "S", interval := 1, utc := true, header := none,
          delay := false, rolloverAt := 100, streamOpen := true } 4 6 0 = true ∧
      ¬(((4 : Int) + 6 > 10) ∨ ((0 : Int) ≥ 100)) := by
  constructor
  · decide
  · decide

/-- C3, amended: `shouldRollover` returns true iff the size sub-condition —
the size trigger is enabled (threshold > 0) AND current segment size plus
pending message size is at least (not strictly above) the threshold — holds,
OR the time sub-condition `now >= rolloverAt` holds; the two are combined by
logical OR, each alone sufficient. -/
theorem c3_amended (h : Handler) (segSize msgLen now : Int) :
    shouldRollover h segSize msgLen now = true ↔
      ((0 < h.maxBytes ∧ h.maxBytes ≤ segSize + msgLen) ∨ h.rolloverAt ≤ now) := by
  unfold shouldRollover rotatingShouldRollover timedShouldRollover
  by_cases hm : 0 < h.maxBytes
  · simp [hm, ge_iff_le]
  · simp [hm, ge_iff_le]

/-- C4, counterexample: the claim says the next-rollover computation,
including the DST compensation applied afterwards, always yields a value
strictly greater than `now`. With `now = 100`, `computeRollover` returning
101 and a DST oracle that flips between 100 and 101, the compensation
subtracts 3600 and the final `rolloverAt` is -3499, not in the future. -/
theorem c4_cex :
    nextRolloverAt "MIDNIGHT" false (fun t => decide (100 < t)) 100 86400 101 0 =
        some (-3499) ∧
      ¬((100 : Int) < -3499) := by
  constructor
  · rfl
  · decide

/-- C4, amended: the value produced by the bump loop is strictly greater
than `now`; the DST compensation can then move it by at most 3600 seconds,
so the final `rolloverAt` is strictly greater than `now - 3600` (and equals
the bumped value whenever no compensation applies). -/
theorem c4_amended (whenU : String) (utc : Bool) (dst : Int → Bool)
    (now interval cr r v : Int) (fuel : Nat)
    (hb : bumpRollover now interval fuel cr = some r)
    (hn : nextRolloverAt whenU utc dst now interval cr fuel = some v) :
    now < r ∧ now - 3600 < v := by
  refine ⟨bumpRollover_gt now interval fuel cr r hb, ?_⟩
  rw [nextRolloverAt_eq, hb] at hn
  simp only [Option.map_some', Option.some.injEq] at hn
  have hr := bumpRollover_gt now interval fuel cr r hb
  have : -3600 ≤ dstAdjust whenU utc dst now r := by
    unfold dstAdjust
    by_cases hw : ((whenU == "MIDNIGHT" || strHasPre "W" whenU) && !utc) = true
    · rw [if_pos hw]
      cases hn : dst now <;> cases hr : dst r <;> simp [hn, hr] <;> omega
    · rw [if_neg hw]
      omega
  omega

/-- Witness for C4 (amended) at concrete inputs. -/
theorem c4_amended_witness : (100 : Int) < 101 ∧ (100 : Int) - 3600 < 101 :=
  c4_amended "S" true (fun _ => false) 100 1 101 101 101 0 (by decide) (by decide)

/-- C5, counterexample: the claim says the compensation compares the DST
flag sampled at the start of the segment being closed (`rolloverAt -
interval`) with the flag at the new `nextTime`. The code compares the flag
at the CURRENT time instead. With the segment having started at 50 (flag
off), now 100 (flag on) and the new time 200 (flag on), the code applies no
compensation (some 200) while the claimed rule would subtract 3600
(some -3400). -/
theorem c5_cex :
    nextRolloverAt "MIDNIGHT" false (fun t => decide (60 ≤ t)) 100 1 200 0 =
        some 200 ∧
      specNextRolloverAt "MIDNIGHT" false (fun t => decide (60 ≤ t)) 100 1 51 200 0 =
        some (-3400) ∧
      (200 : Int) ≠ -3400 := by
  refine ⟨rfl, rfl, by decide⟩

/-- C5, amended: the DST compensation is applied exactly when the unit is
`MIDNIGHT` or weekly and the destination is not UTC; it compares the DST
flag sampled at the CURRENT time of the rollover call (the moment the
segment is closed) with the flag at the newly computed time, and when they
differ it subtracts 3600 seconds if DST is active at the new time but not
now, and adds 3600 seconds if DST is active now but not at the new time. -/
theorem c5_amended (whenU : String) (utc : Bool) (dst : Int → Bool)
    (now interval cr r : Int) (fuel : Nat)
    (hb : bumpRollover now interval fuel cr = some r) :
    nextRolloverAt whenU utc dst now interval cr fuel =
      some (if (whenU == "MIDNIGHT" || strHasPre "W" whenU) && !utc then
              if dst now != dst r then
                (if dst now then r + 3600 else r - 3600)
              else r
            else r) := by
  rw [nextRolloverAt_eq, hb]
  simp only [Option.map_some', dstAdjust]
  by_cases hw : ((whenU == "MIDNIGHT" || strHasPre "W" whenU) && !utc) = true
  · rw [if_pos hw, if_pos hw]
    cases hn : dst now <;> cases hr : dst r <;> simp [hn, hr] <;> omega
  · rw [if_neg hw, if_neg hw]
    simp

/-- Witness for C5 (amended) at concrete inputs: MIDNIGHT, local time, DST
flag on now and off at the new time, so 3600 is added. -/
theorem c5_amended_witness :
    nextRolloverAt "MIDNIGHT" false (fun t => decide (t < 150)) 100 1 200 0 =
      some (if (("MIDNIGHT" == "MIDNIGHT" || strHasPre "W" "MIDNIGHT") && !false) then
              if (fun t => decide (t < 150)) 100 != (fun t => decide (t < 150)) 200 then
                (if (fun t => decide (t < 150)) 100 then (200 : Int) + 3600 else 200 - 3600)
              else 200
            else 200) :=
  c5_amended "MIDNIGHT" false (fun t => decide (t < 150)) 100 1 200 200 0 (by decide)

/-! Helper lemmas about the file-system model and backups. -/

theorem strHasPre_append_right (a b : String) : strHasPre a (a ++ b) = true := by
  unfold strHasPre
  rw [String.data_append, List.isPrefixOf_iff_prefix]
  exact List.prefix_append _ _

theorem strHasPre_extend (a s t : String) (h : strHasPre a s = true) :
    strHasPre a (s ++ t) = true := by
  unfold strHasPre at h ⊢
  rw [String.data_append, List.isPrefixOf_iff_prefix]
  rw [List.isPrefixOf_iff_prefix] at h
  exact h.trans (List.prefix_append _ _)

theorem strHasPre_dot_ne (b m : String) (h : strHasPre (b ++ ".") m = true) :
    m ≠ b := by
  intro he
  subst he
  unfold strHasPre at h
  rw [String.data_append, List.isPrefixOf_iff_prefix] at h
  have hlen := h.length_le
  rw [List.length_append] at hlen
  have h1 : (".".data).length = 1 := rfl
  omega

theorem fsExists_iff (fs : Fs) (n : String) :
    fsExists fs n = true ↔ n ∈ fsNames fs := by
  unfold fsExists fsNames
  simp [List.any_eq_true, List.mem_map, beq_iff_eq]

theorem backupsOf_fsRemove (fs : Fs) (base n : String) :
    backupsOf (fsRemove fs n) base = (backupsOf fs base).filter (fun m => m != n) := by
  unfold backupsOf fsRemove fsNames
  induction fs with
  | nil => rfl
  | cons p fs ih =>
    simp only [List.filter_cons, List.map_cons]
    by_cases h1 : (p.1 != n) = true <;>
      by_cases h2 : strHasPre (base ++ ".") p.1 = true <;>
        simp [h1, h2, List.filter_cons, ih]

theorem backupsOf_removeAll (fs : Fs) (base : String) (del : List String) :
    backupsOf (removeAll fs del) base =
      (backupsOf fs base).filter (fun m => !(del.contains m)) := by
  induction del generalizing fs with
  | nil => simp [removeAll]
  | cons d ds ih =>
    show backupsOf (removeAll (fsRemove fs d) ds) base = _
    rw [ih, backupsOf_fsRemove, List.filter_filter]
    apply List.filter_congr
    intro m _
    by_cases hd : m = d <;> by_cases hds : m ∈ ds <;> simp [hd, hds]

theorem backupsOf_append (fs₁ fs₂ : Fs) (base : String) :
    backupsOf (fs₁ ++ fs₂) base = backupsOf fs₁ base ++ backupsOf fs₂ base := by
  unfold backupsOf fsNames
  simp [List.filter_append]

theorem backupsOf_fsTouch (fs : Fs) (base : String) :
    backupsOf (fsTouch fs base) base = backupsOf fs base := by
  unfold fsTouch
  split
  · rfl
  · rw [backupsOf_append]
    have : backupsOf [(base, "")] base = [] := by
      unfold backupsOf fsNames
      simp only [List.map_cons, List.map_nil, List.filter]
      cases hx : strHasPre (base ++ ".") base
      · rfl
      · exact absurd rfl (strHasPre_dot_ne base base hx)
    rw [this, List.append_nil]

theorem fsNames_fsAppend (fs : Fs) (n s : String) :
    fsNames (fsAppend fs n s) = fsNames fs := by
  unfold fsAppend fsNames
  induction fs with
  | nil => rfl
  | cons p fs ih =>
    have hh : (if (p.1 == n) = true then (p.1, p.2 ++ s) else p).1 = p.1 := by
      split <;> rfl
    simp only [List.map_cons, hh, ih]

theorem backupsOf_fsAppend (fs : Fs) (n s base : String) :
    backupsOf (fsAppend fs n s) base = backupsOf fs base := by
  unfold backupsOf
  rw [fsNames_fsAppend]

theorem backupsOf_sublist_names (fs : Fs) (base : String) :
    ∀ m ∈ backupsOf fs base, m ∈ fsNames fs := by
  intro m hm
  unfold backupsOf at hm
  exact (List.mem_filter.mp hm).1

theorem backupsOf_nodup (fs : Fs) (base : String) (h : (fsNames fs).Nodup) :
    (backupsOf fs base).Nodup :=
  h.filter _

theorem fsLookup_isSome_of_exists (fs : Fs) (n : String)
    (h : fsExists fs n = true) : (fsLookup fs n).isSome = true := by
  unfold fsExists at h
  unfold fsLookup
  rw [List.any_eq_true] at h
  obtain ⟨p, hp, he⟩ := h
  have hf : (List.find? (fun p => p.1 == n) fs).isSome = true :=
    List.find?_isSome.mpr ⟨p, hp, he⟩
  cases hq : List.find? (fun p => p.1 == n) fs with
  | none => rw [hq] at hf; exact absurd hf (by simp)
  | some q => rfl

theorem backupsOf_fsRename_base (fs : Fs) (base sfn : String)
    (hmem : fsExists fs base = true)
    (hpre : strHasPre (base ++ ".") sfn = true) :
    backupsOf (fsRename fs base sfn) base = backupsOf fs base ++ [sfn] := by
  unfold fsRename
  cases hl : fsLookup fs base with
  | none =>
    have := fsLookup_isSome_of_exists fs base hmem
    rw [hl] at this
    simp at this
  | some c =>
    rw [backupsOf_append, backupsOf_fsRemove]
    have h1 : backupsOf [(sfn, c)] base = [sfn] := by
      unfold backupsOf fsNames
      simp [List.filter_cons, hpre]
    rw [h1]
    congr 1
    apply List.filter_eq_self.mpr
    intro m hm
    have := strHasPre_dot_ne base m (List.mem_filter.mp hm).2
    simpa using this

theorem filter_not_contains_append (t d : List String) (hnd : (t ++ d).Nodup) :
    ((t ++ d).filter (fun m => !(t.contains m))).length = d.length := by
  rw [List.filter_append]
  have htake : t.filter (fun m => !(t.contains m)) = [] := by
    apply List.filter_eq_nil.mpr
    intro m hm
    simp [hm]
  have hdrop : d.filter (fun m => !(t.contains m)) = d := by
    apply List.filter_eq_self.mpr
    intro m hm
    have hdisj : t.Disjoint d := by
      rw [List.nodup_append] at hnd
      exact hnd.2.2
    have hnm : m ∉ t := fun hmem => hdisj hmem hm
    simpa [List.elem_iff] using hnm
  rw [htake, hdrop]
  simp

theorem filter_not_contains_take (l : List String) (hl : l.Nodup) (k : Nat) :
    (l.filter (fun m => !((l.take k).contains m))).length = l.length - k := by
  have h2 := filter_not_contains_append (l.take k) (l.drop k)
    (by rw [List.take_append_drop]; exact hl)
  rw [List.take_append_drop] at h2
  rw [h2, List.length_drop]

theorem prune_bound (fs : Fs) (base : String) (n : Int)
    (hnd : (backupsOf fs base).Nodup) :
    (backupsOf (removeAll fs (getFilesToDelete fs base n)) base).length ≤ n.toNat := by
  unfold getFilesToDelete
  by_cases hle : (backupsOf fs base).length ≤ n.toNat
  · simpa [hle, removeAll] using hle
  · simp only [hle, if_false]
    rw [backupsOf_removeAll, filter_not_contains_take _ hnd]
    omega

/-! Helper lemmas about traces and the rollover pipeline. -/

theorem fileWrites_append (a b : List Ev) :
    fileWrites (a ++ b) = fileWrites a ++ fileWrites b := by
  simp [fileWrites]

theorem consoleWrites_append (a b : List Ev) :
    consoleWrites (a ++ b) = consoleWrites a ++ consoleWrites b := by
  simp [consoleWrites]

theorem renamesOf_append (a b : List Ev) :
    renamesOf (a ++ b) = renamesOf a ++ renamesOf b := by
  simp [renamesOf]

theorem removesOf_append (a b : List Ev) :
    removesOf (a ++ b) = removesOf a ++ removesOf b := by
  simp [removesOf]

theorem fileWrites_removeEvs (l : List String) :
    fileWrites (l.map Ev.removeEv) = [] := by
  induction l with
  | nil => rfl
  | cons a l ih => simpa [fileWrites] using ih

theorem consoleWrites_removeEvs (l : List String) :
    consoleWrites (l.map Ev.removeEv) = [] := by
  induction l with
  | nil => rfl
  | cons a l ih => simpa [consoleWrites] using ih

theorem renamesOf_removeEvs (l : List String) :
    renamesOf (l.map Ev.removeEv) = [] := by
  induction l with
  | nil => rfl
  | cons a l ih => simpa [renamesOf] using ih

theorem doRollover_some (h : Handler) (fs : Fs) (dst : Int → Bool)
    (fmtL fmtU : Int → String) (now cr : Int) (fuelN fuelB : Nat)
    (out : Handler × Fs × List Ev)
    (hrun : doRollover h fs dst fmtL fmtU now cr fuelN fuelB = some out) :
    ∃ fsA trA v,
      archiveStep h fs
          (archiveName h.baseFilename h.utc dst fmtL fmtU now h.rolloverAt h.interval)
          fuelN = some (fsA, trA) ∧
      nextRolloverAt h.whenU h.utc dst now h.interval cr fuelB = some v ∧
      out = ({ h with streamOpen := (reopenStep h fsA).2.2, rolloverAt := v },
             (reopenStep h fsA).1, trA ++ (reopenStep h fsA).2.1) := by
  unfold doRollover at hrun
  split at hrun
  · exact absurd hrun (by simp)
  · rename_i fsA trA heqA
    split at hrun
    · exact absurd hrun (by simp)
    · rename_i v heqN
      simp only [Option.some.injEq] at hrun
      exact ⟨fsA, trA, v, heqA, heqN, hrun.symm⟩

theorem archiveName_pre (base : String) (utc : Bool) (dst : Int → Bool)
    (fmtL fmtU : Int → String) (now rolloverAt interval : Int) :
    strHasPre (base ++ ".")
      (archiveName base utc dst fmtL fmtU now rolloverAt interval) = true := by
  unfold archiveName
  split
  · exact strHasPre_append_right _ _
  · exact strHasPre_append_right _ _

theorem numberedName_pre (base dfn : String) (k : Nat)
    (hpre : strHasPre (base ++ ".") dfn = true) :
    strHasPre (base ++ ".") (numberedName dfn k) = true := by
  unfold numberedName
  exact strHasPre_extend _ _ _ (strHasPre_extend _ _ _ hpre)

theorem reopenStep_backups (h : Handler) (fs : Fs) :
    backupsOf (reopenStep h fs).1 h.baseFilename = backupsOf fs h.baseFilename := by
  unfold reopenStep
  by_cases hd : h.delay = true
  · rw [if_pos hd]
  · rw [if_neg hd]
    cases hh : h.header <;> simp [backupsOf_fsAppend, backupsOf_fsTouch]

theorem archiveStep_backups (h : Handler) (fs : Fs) (dfn : String) (fuelN : Nat)
    (out : Fs × List Ev)
    (hnd : (fsNames fs).Nodup) (hbc : 0 < h.backupCount)
    (hpre : strHasPre (h.baseFilename ++ ".") dfn = true)
    (hrun : archiveStep h fs dfn fuelN = some out) :
    (backupsOf out.1 h.baseFilename).length ≤ h.backupCount.toNat := by
  unfold archiveStep at hrun
  rw [if_pos hbc] at hrun
  split at hrun
  · exact absurd hrun (by simp)
  · rename_i sfn heqS
    simp only [Option.some.injEq] at hrun
    obtain ⟨hsfn, hfree⟩ := searchFreeName_some fs dfn fuelN sfn heqS
    subst hsfn
    rw [← hrun]
    apply prune_bound
    unfold rotateFile
    by_cases hex : fsExists fs h.baseFilename = true
    · rw [if_pos hex]
      rw [backupsOf_fsRename_base fs _ _ hex (numberedName_pre _ _ _ hpre)]
      have hbs : (backupsOf fs h.baseFilename).Nodup :=
        backupsOf_nodup fs h.baseFilename hnd
      have hnmem : numberedName dfn 1 ∉ fsNames fs := by
        intro hm
        have hx := (fsExists_iff fs (numberedName dfn 1)).mpr hm
        rw [hfree] at hx
        exact absurd hx (by simp)
      have hnb : numberedName dfn 1 ∉ backupsOf fs h.baseFilename :=
        fun hm => hnmem (backupsOf_sublist_names fs h.baseFilename _ hm)
      rw [List.nodup_append]
      refine ⟨hbs, List.nodup_singleton _, ?_⟩
      intro a ha hb
      rw [List.mem_singleton] at hb
      subst hb
      exact hnb ha
    · rw [if_neg hex]
      exact backupsOf_nodup fs h.baseFilename hnd

theorem fileWrites_initOpenFs (cfg : Config) (fs : Fs) :
    fileWrites (initOpenFs cfg fs).2 = [] := by
  unfold initOpenFs
  by_cases hd : cfg.delay = true
  · rw [if_pos hd]
    rfl
  · rw [if_neg hd]
    by_cases hm : ((if cfg.maxBytes > 0 then "a" else cfg.mode) == "w") = true
    · rw [if_pos hm]
      rfl
    · rw [if_neg hm]
      rfl

theorem rotateFile_trace (fs : Fs) (src dst : String) :
    (rotateFile fs src dst).2 =
      (if fsExists fs src then [Ev.renameEv src dst] else []) := by
  unfold rotateFile
  split <;> rfl

theorem renamesOf_reopenStep (h : Handler) (fs : Fs) :
    renamesOf (reopenStep h fs).2.1 = [] := by
  unfold reopenStep
  by_cases hd : h.delay = true
  · rw [if_pos hd]
    rfl
  · rw [if_neg hd]
    cases h.header <;> rfl

theorem removesOf_reopenStep (h : Handler) (fs : Fs) :
    removesOf (reopenStep h fs).2.1 = [] := by
  unfold reopenStep
  by_cases hd : h.delay = true
  · rw [if_pos hd]
    rfl
  · rw [if_neg hd]
    cases h.header <;> rfl

theorem archiveStep_quiet (h : Handler) (fs : Fs) (dfn : String) (fuelN : Nat)
    (out : Fs × List Ev) (hrun : archiveStep h fs dfn fuelN = some out) :
    fileWrites out.2 = [] ∧ consoleWrites out.2 = [] := by
  unfold archiveStep at hrun
  by_cases hbc : h.backupCount > 0
  · rw [if_pos hbc] at hrun
    split at hrun
    · exact absurd hrun (by simp)
    · rename_i sfn heqS
      simp only [Option.some.injEq] at hrun
      rw [← hrun]
      rw [show ((removeAll (rotateFile fs h.baseFilename sfn).1
            (getFilesToDelete (rotateFile fs h.baseFilename sfn).1
              h.baseFilename h.backupCount),
          (rotateFile fs h.baseFilename sfn).2 ++
            (getFilesToDelete (rotateFile fs h.baseFilename sfn).1
              h.baseFilename h.backupCount).map Ev.removeEv) :
          Fs × List Ev).2 =
        (rotateFile fs h.baseFilename sfn).2 ++
          (getFilesToDelete (rotateFile fs h.baseFilename sfn).1
            h.baseFilename h.backupCount).map Ev.removeEv from rfl]
      rw [fileWrites_append, consoleWrites_append, rotateFile_trace,
        fileWrites_removeEvs, consoleWrites_removeEvs]
      constructor <;> split <;> rfl
  · rw [if_neg hbc] at hrun
    simp only [Option.some.injEq] at hrun
    rw [← hrun]
    rw [show ((((rotateFile (if fsExists fs dfn then fsRemove fs dfn else fs)
            h.baseFilename dfn).1,
          (if fsExists fs dfn then [Ev.removeEv dfn] else []) ++
            (rotateFile (if fsExists fs dfn then fsRemove fs dfn else fs)
              h.baseFilename dfn).2)) :
          Fs × List Ev).2 =
        (if fsExists fs dfn then [Ev.removeEv dfn] else []) ++
          (rotateFile (if fsExists fs dfn then fsRemove fs dfn else fs)
            h.baseFilename dfn).2 from rfl]
    rw [fileWrites_append, consoleWrites_append, rotateFile_trace]
    constructor <;> (first | (split <;> split <;> rfl) | (split <;> rfl))

/-- C2: with retention count N > 0, immediately after any completed
rollover the number of backup files for the destination is at most N: the
disambiguation search only completes at a free name, the rename adds one
backup, and the pruning step (modelled from the spec, see
`getFilesToDelete`) removes the oldest backups beyond the newest N. The
file system is assumed to hold each name once. -/
theorem c2_retention_bound (h : Handler) (fs : Fs) (dst : Int → Bool)
    (fmtL fmtU : Int → String) (now cr : Int) (fuelN fuelB : Nat)
    (out : Handler × Fs × List Ev)
    (hnd : (fsNames fs).Nodup) (hbc : 0 < h.backupCount)
    (hrun : doRollover h fs dst fmtL fmtU now cr fuelN fuelB = some out) :
    (backupsOf out.2.1 h.baseFilename).length ≤ h.backupCount.toNat := by
  obtain ⟨fsA, trA, v, ha, hn, hout⟩ :=
    doRollover_some h fs dst fmtL fmtU now cr fuelN fuelB out hrun
  rw [hout]
  show (backupsOf (reopenStep h fsA).1 h.baseFilename).length ≤ _
  rw [reopenStep_backups]
  exact archiveStep_backups h fs _ fuelN (fsA, trA) hnd hbc
    (archiveName_pre _ _ _ _ _ _ _ _) ha

/-- Witness for C2 at a concrete run: retention 2, three backups on disk
before the rollover, two afterwards. -/
theorem c2_retention_bound_witness :
    (backupsOf [("b.3", "x3"), ("b.9.001", "c0"), ("b", "HDR\n")]
        hRet2.baseFilename).length ≤ hRet2.backupCount.toNat :=
  c2_retention_bound hRet2
    [("b.1", "x1"), ("b.2", "x2"), ("b.3", "x3"), ("b", "c0")]
    dstOff fmtNum fmtNum 10 11 1 1
    ({ hRet2 with rolloverAt := 11 },
     [("b.3", "x3"), ("b.9.001", "c0"), ("b", "HDR\n")],
     [Ev.renameEv "b" "b.9.001", Ev.removeEv "b.1", Ev.removeEv "b.2",
      Ev.openEv "b", Ev.consoleWrite "Hi!", Ev.fileWrite "HDR\n"])
    (by decide) (by decide) (by decide)

/-- C6: whenever a segment is (re)created with a header configured and
deferred-open not in effect — at construction and after every rollover —
the bytes the handler writes to the new segment are exactly the header text
plus one line terminator and nothing else. -/
theorem c6_header_law :
    (∀ (cfg : Config) (fs : Fs) (cr0 : Int) (out : Handler × Fs × List Ev)
        (hd : String), cfg.delay = false → cfg.header = some hd →
        init cfg fs cr0 = some out → fileWrites out.2.2 = [hd ++ "\n"]) ∧
    (∀ (h : Handler) (fs : Fs) (dst : Int → Bool) (fmtL fmtU : Int → String)
        (now cr : Int) (fuelN fuelB : Nat) (out : Handler × Fs × List Ev)
        (hd : String), h.delay = false → h.header = some hd →
        doRollover h fs dst fmtL fmtU now cr fuelN fuelB = some out →
        fileWrites out.2.2 = [hd ++ "\n"]) := by
  constructor
  · intro cfg fs cr0 out hd hdelay hheader hrun
    unfold init at hrun
    split at hrun
    · exact absurd hrun (by simp)
    · rename_i secs heqW
      split at hrun
      · rename_i hd2 heqH
        have hdd : hd2 = hd := by
          rw [heqH] at hheader
          exact Option.some.inj hheader
        rw [if_neg (by simp [hdelay])] at hrun
        simp only [Option.some.injEq] at hrun
        rw [← hrun]
        show fileWrites ((initOpenFs cfg fs).2 ++ [Ev.fileWrite (hd2 ++ "\n")]) =
          [hd ++ "\n"]
        rw [hdd, fileWrites_append, fileWrites_initOpenFs]
        rfl
      · rename_i heqH
        rw [heqH] at hheader
        exact absurd hheader (by simp)
  · intro h fs dst fmtL fmtU now cr fuelN fuelB out hd hdelay hheader hrun
    obtain ⟨fsA, trA, v, ha, hn, hout⟩ :=
      doRollover_some h fs dst fmtL fmtU now cr fuelN fuelB out hrun
    rw [hout]
    show fileWrites (trA ++ (reopenStep h fsA).2.1) = [hd ++ "\n"]
    rw [fileWrites_append, (archiveStep_quiet h fs _ fuelN (fsA, trA) ha).1]
    unfold reopenStep
    rw [if_neg (by simp [hdelay]), hheader]
    rfl

/-- Witness for C6 at concrete runs: a construction and a rollover, both
with header `"HDR"`, both writing exactly `"HDR\n"`. -/
theorem c6_header_law_witness :
    fileWrites [Ev.openEv "base.log", Ev.openEv "base.log",
        Ev.fileWrite ("HDR" ++ "\n")] = ["HDR" ++ "\n"] ∧
    fileWrites [Ev.renameEv "b" "b.9.001", Ev.openEv "b",
        Ev.consoleWrite "Hi!", Ev.fileWrite ("HDR" ++ "\n")] = ["HDR" ++ "\n"] :=
  ⟨c6_header_law.1 cfgHdr [] 42
      (initHandler cfgHdr 86400 42,
       [("base.log", "HDR\n")],
       [Ev.openEv "base.log", Ev.openEv "base.log", Ev.fileWrite ("HDR" ++ "\n")])
      "HDR" rfl rfl (by decide),
   c6_header_law.2 hRet3 [("b", "c0")] dstOff fmtNum fmtNum 10 11 1 1
      ({ hRet3 with rolloverAt := 11 },
       [("b.9.001", "c0"), ("b", "HDR\n")],
       [Ev.renameEv "b" "b.9.001", Ev.openEv "b",
        Ev.consoleWrite "Hi!", Ev.fileWrite ("HDR" ++ "\n")])
      "HDR" rfl rfl (by decide)⟩

/-- C9: the claim says rollover performs no unconditional console output.
The code executes `print("Hi!")` whenever the header is rewritten: this
concrete rollover with a header configured and `delay` unset emits the
console write `"Hi!"`. -/
theorem c9_rollover_prints :
    doRollover hRet3 [("b", "c0")] dstOff fmtNum fmtNum 10 11 1 1 =
        some ({ hRet3 with rolloverAt := 11 },
              [("b.9.001", "c0"), ("b", "HDR\n")],
              [Ev.renameEv "b" "b.9.001", Ev.openEv "b",
               Ev.consoleWrite "Hi!", Ev.fileWrite "HDR\n"]) ∧
      consoleWrites [Ev.renameEv "b" "b.9.001", Ev.openEv "b",
        Ev.consoleWrite "Hi!", Ev.fileWrite "HDR\n"] = ["Hi!"] := by
  constructor
  · decide
  · rfl

/-- C10: with retention > 0, whenever the base file exists and no file
exists at `dfn.001`, the rollover's only rename moves the base file to
exactly `dfn.001` — the disambiguator used is always 1, however many other
backups exist. -/
theorem c10_renames_to_001 (h : Handler) (fs : Fs) (dst : Int → Bool)
    (fmtL fmtU : Int → String) (now cr : Int) (fuelN fuelB : Nat)
    (out : Handler × Fs × List Ev)
    (hbc : 0 < h.backupCount)
    (hbase : fsExists fs h.baseFilename = true)
    (hfree : fsExists fs
      (numberedName
        (archiveName h.baseFilename h.utc dst fmtL fmtU now h.rolloverAt h.interval)
        1) = false)
    (hrun : doRollover h fs dst fmtL fmtU now cr fuelN fuelB = some out) :
    renamesOf out.2.2 =
      [(h.baseFilename,
        numberedName
          (archiveName h.baseFilename h.utc dst fmtL fmtU now h.rolloverAt h.interval)
          1)] := by
  obtain ⟨fsA, trA, v, ha, hn, hout⟩ :=
    doRollover_some h fs dst fmtL fmtU now cr fuelN fuelB out hrun
  rw [hout]
  show renamesOf (trA ++ (reopenStep h fsA).2.1) = _
  rw [renamesOf_append, renamesOf_reopenStep, List.append_nil]
  unfold archiveStep at ha
  rw [if_pos hbc, searchFreeName_of_free _ _ fuelN hfree] at ha
  simp only [Option.some.injEq, Prod.mk.injEq] at ha
  rw [← ha.2]
  rw [renamesOf_append, renamesOf_removeEvs, List.append_nil, rotateFile_trace,
    if_pos hbase]
  rfl

/-- Witness for C10 at a concrete run with retention 3. -/
theorem c10_renames_to_001_witness :
    renamesOf [Ev.renameEv "b" "b.9.001", Ev.openEv "b",
        Ev.consoleWrite "Hi!", Ev.fileWrite "HDR\n"] =
      [("b",
        numberedName (archiveName "b" true dstOff fmtNum fmtNum 10 10 1) 1)] :=
  c10_renames_to_001 hRet3 [("b", "c0")] dstOff fmtNum fmtNum 10 11 1 1
    ({ hRet3 with rolloverAt := 11 },
     [("b.9.001", "c0"), ("b", "HDR\n")],
     [Ev.renameEv "b" "b.9.001", Ev.openEv "b",
      Ev.consoleWrite "Hi!", Ev.fileWrite "HDR\n"])
    (by decide) (by decide) (by decide) (by decide)

/-! Helper lemmas about lookups, for the overwrite-mode claim. -/

theorem fsNames_fsRemove (fs : Fs) (m : String) :
    fsNames (fsRemove fs m) = (fsNames fs).filter (fun x => x != m) := by
  unfold fsRemove fsNames
  induction fs with
  | nil => rfl
  | cons p fs ih =>
    simp only [List.filter_cons, List.map_cons]
    by_cases h1 : (p.1 != m) = true <;> simp [h1, ih]

theorem fsExists_fsRemove_ne (fs : Fs) (m n : String) (h : n ≠ m) :
    fsExists (fsRemove fs m) n = fsExists fs n := by
  cases hx : fsExists fs n
  · cases hy : fsExists (fsRemove fs m) n
    · rfl
    · have h1 := (fsExists_iff _ _).mp hy
      rw [fsNames_fsRemove] at h1
      have h2 := (fsExists_iff fs n).mpr (List.mem_filter.mp h1).1
      rw [hx] at h2
      simp at h2
  · apply (fsExists_iff _ _).mpr
    rw [fsNames_fsRemove]
    exact List.mem_filter.mpr ⟨(fsExists_iff fs n).mp hx, by simp [h]⟩

theorem fsLookup_none_of_not_exists (fs : Fs) (n : String)
    (h : fsExists fs n = false) : fsLookup fs n = none := by
  unfold fsExists at h
  unfold fsLookup
  cases hf : List.find? (fun p => p.1 == n) fs with
  | none => rfl
  | some q =>
    have hq := List.find?_some hf
    have hmem := List.mem_of_find?_eq_some hf
    have : fs.any (fun p => p.1 == n) = true := List.any_eq_true.mpr ⟨q, hmem, hq⟩
    rw [h] at this
    simp at this

theorem fsLookup_fsRemove_self (fs : Fs) (n : String) :
    fsLookup (fsRemove fs n) n = none := by
  apply fsLookup_none_of_not_exists
  cases hy : fsExists (fsRemove fs n) n
  · rfl
  · have h1 := (fsExists_iff _ _).mp hy
    rw [fsNames_fsRemove] at h1
    have := (List.mem_filter.mp h1).2
    simp at this

theorem fsLookup_fsRemove_ne (fs : Fs) (m n : String) (h : n ≠ m) :
    fsLookup (fsRemove fs m) n = fsLookup fs n := by
  unfold fsLookup fsRemove
  induction fs with
  | nil => rfl
  | cons p fs ih =>
    cases h1 : (p.1 == n) with
    | true =>
      have hpn : p.1 = n := by simpa using h1
      have hpm : (p.1 != m) = true := by simp [hpn, h]
      simp only [List.filter_cons, hpm, if_true, List.find?_cons, h1, cond]
    | false =>
      by_cases h2 : (p.1 != m) = true
      · simp only [List.filter_cons, h2, if_true, List.find?_cons, h1, cond]
        exact ih
      · simp only [List.filter_cons, h2, Bool.false_eq_true, if_false,
          List.find?_cons, h1, cond]
        exact ih

theorem fsLookup_append (l1 l2 : Fs) (n : String) :
    fsLookup (l1 ++ l2) n =
      (match fsLookup l1 n with
       | some c => some c
       | none => fsLookup l2 n) := by
  unfold fsLookup
  induction l1 with
  | nil => simp
  | cons p l1 ih =>
    cases h1 : (p.1 == n) with
    | true =>
      rw [List.cons_append]
      simp only [List.find?_cons, h1, cond]
      rfl
    | false =>
      rw [List.cons_append]
      simp only [List.find?_cons, h1, cond]
      exact ih

theorem fsLookup_singleton_ne (b c n : String) (h : n ≠ b) :
    fsLookup [(b, c)] n = none := by
  unfold fsLookup
  have hb : (((b, c) : String × String).1 == n) = false := by simp [Ne.symm h]
  simp only [List.find?_cons, hb, cond, List.find?_nil, Option.map_none']

theorem fsLookup_singleton_self (b c : String) :
    fsLookup [(b, c)] b = some c := by
  unfold fsLookup
  have hb : (((b, c) : String × String).1 == b) = true := by simp
  simp only [List.find?_cons, hb, cond, Option.map_some']

theorem fsLookup_fsTouch_ne (fs : Fs) (b n : String) (h : n ≠ b) :
    fsLookup (fsTouch fs b) n = fsLookup fs n := by
  unfold fsTouch
  split
  · rfl
  · rw [fsLookup_append]
    cases hl : fsLookup fs n
    · simp [fsLookup_singleton_ne b "" n h]
    · simp

theorem fsLookup_fsAppend_ne (fs : Fs) (b s n : String) (h : n ≠ b) :
    fsLookup (fsAppend fs b s) n = fsLookup fs n := by
  unfold fsLookup fsAppend
  induction fs with
  | nil => rfl
  | cons p fs ih =>
    have hq1 : (if (p.1 == b) = true then (p.1, p.2 ++ s) else p).1 = p.1 := by
      split <;> rfl
    cases h1 : (p.1 == n) with
    | true =>
      have hpn : p.1 = n := by simpa using h1
      have hpb : (p.1 == b) = false := by simp [hpn, h]
      simp only [List.map_cons, hpb, Bool.false_eq_true, if_false,
        List.find?_cons, h1, cond]
    | false =>
      simp only [List.map_cons, List.find?_cons, hq1, h1, cond]
      exact ih

theorem fsLookup_reopenStep_ne (h : Handler) (fs : Fs) (n : String)
    (hne : n ≠ h.baseFilename) :
    fsLookup (reopenStep h fs).1 n = fsLookup fs n := by
  unfold reopenStep
  by_cases hd : h.delay = true
  · rw [if_pos hd]
  · rw [if_neg hd]
    cases h.header <;>
      simp [fsLookup_fsAppend_ne _ _ _ _ hne, fsLookup_fsTouch_ne _ _ _ hne]

theorem fsLookup_rotateFile_ne (fs : Fs) (src dst n : String)
    (h1 : n ≠ src) (h2 : n ≠ dst) :
    fsLookup (rotateFile fs src dst).1 n = fsLookup fs n := by
  unfold rotateFile
  split
  · show fsLookup (fsRename fs src dst) n = fsLookup fs n
    unfold fsRename
    cases hl : fsLookup fs src with
    | none => rfl
    | some c =>
      rw [fsLookup_append]
      cases hx : fsLookup (fsRemove fs src) n with
      | none =>
        rw [fsLookup_fsRemove_ne fs src n h1] at hx
        simp [fsLookup_singleton_ne dst c n h2, hx]
      | some d =>
        rw [fsLookup_fsRemove_ne fs src n h1] at hx
        simp [hx]
  · rfl

/-- C7, counterexample: the claim says that in overwrite mode (retention 0)
at most one archived file exists at a time, consecutive rotations silently
replacing it. Two consecutive rollovers whose archive names differ (the
formatted timestamp moved from 9 to 10) leave TWO archive files. -/
theorem c7_cex :
    doRollover hRet0 [("b", "c0")] dstOff fmtNum fmtNum 10 11 1 1 =
        some ({ hRet0 with rolloverAt := 11 }, [("b.9", "c0"), ("b", "")],
              [Ev.renameEv "b" "b.9", Ev.openEv "b"]) ∧
      doRollover { hRet0 with rolloverAt := 11 } [("b.9", "c0"), ("b", "")]
          dstOff fmtNum fmtNum 11 12 1 1 =
        some ({ hRet0 with rolloverAt := 12 },
              [("b.9", "c0"), ("b.10", ""), ("b", "")],
              [Ev.renameEv "b" "b.10", Ev.openEv "b"]) ∧
      ¬((backupsOf [("b.9", "c0"), ("b.10", ""), ("b", "")] "b").length ≤ 1) := by
  refine ⟨by decide, by decide, by decide⟩

/-- C7, amended: with retention count 0, a completed rollover deletes any
file already existing at the computed archive name `dfn`, renames the base
file to `dfn` with no numeric disambiguator, performs no pruning, and
touches no other file; hence at most one archive exists per archive name
and consecutive rotations that compute the same `dfn` silently replace it —
rotations that compute different names accumulate archives. -/
theorem c7_overwrite (h : Handler) (fs : Fs) (dst : Int → Bool)
    (fmtL fmtU : Int → String) (now cr : Int) (fuelN fuelB : Nat)
    (out : Handler × Fs × List Ev) (dfn : String)
    (hbc : h.backupCount = 0)
    (hdfn : dfn = archiveName h.baseFilename h.utc dst fmtL fmtU now
      h.rolloverAt h.interval)
    (hrun : doRollover h fs dst fmtL fmtU now cr fuelN fuelB = some out) :
    removesOf out.2.2 = (if fsExists fs dfn then [dfn] else []) ∧
    renamesOf out.2.2 =
      (if fsExists fs h.baseFilename then [(h.baseFilename, dfn)] else []) ∧
    (fsExists fs h.baseFilename = true →
      fsLookup out.2.1 dfn = fsLookup fs h.baseFilename) ∧
    (∀ n, n ≠ h.baseFilename → n ≠ dfn → fsLookup out.2.1 n = fsLookup fs n) := by
  have hne : dfn ≠ h.baseFilename := by
    rw [hdfn]
    exact strHasPre_dot_ne _ _ (archiveName_pre _ _ _ _ _ _ _ _)
  obtain ⟨fsA, trA, v, ha, hn, hout⟩ :=
    doRollover_some h fs dst fmtL fmtU now cr fuelN fuelB out hrun
  unfold archiveStep at ha
  rw [if_neg (by simp [hbc]), ← hdfn] at ha
  simp only [Option.some.injEq, Prod.mk.injEq] at ha
  obtain ⟨hfsA, htrA⟩ := ha
  rw [hout]
  by_cases he : fsExists fs dfn = true
  · rw [if_pos he] at hfsA
    rw [if_pos he, if_pos he] at htrA
    have hsb : fsExists (fsRemove fs dfn) h.baseFilename = fsExists fs h.baseFilename :=
      fsExists_fsRemove_ne fs dfn h.baseFilename (Ne.symm hne)
    refine ⟨?_, ?_, ?_, ?_⟩
    · show removesOf (trA ++ (reopenStep h fsA).2.1) = _
      rw [removesOf_append, removesOf_reopenStep, List.append_nil, ← htrA,
        removesOf_append, rotateFile_trace]
      have hr2 : removesOf
          (if fsExists (fsRemove fs dfn) h.baseFilename then
            [Ev.renameEv h.baseFilename dfn] else []) = [] := by
        split <;> rfl
      rw [hr2, List.append_nil, if_pos he]
      rfl
    · show renamesOf (trA ++ (reopenStep h fsA).2.1) = _
      rw [renamesOf_append, renamesOf_reopenStep, List.append_nil, ← htrA,
        renamesOf_append, rotateFile_trace, hsb]
      have hr1 : renamesOf [Ev.removeEv dfn] = [] := rfl
      rw [hr1, List.nil_append]
      cases hb : fsExists fs h.baseFilename <;> simp [renamesOf]
    · intro hbase
      show fsLookup (reopenStep h fsA).1 dfn = _
      rw [fsLookup_reopenStep_ne h fsA dfn hne, ← hfsA]
      unfold rotateFile
      rw [if_pos (by rw [hsb]; exact hbase)]
      show fsLookup (fsRename (fsRemove fs dfn) h.baseFilename dfn) dfn = _
      unfold fsRename
      have hlb : fsLookup (fsRemove fs dfn) h.baseFilename =
          fsLookup fs h.baseFilename :=
        fsLookup_fsRemove_ne fs dfn h.baseFilename (Ne.symm hne)
      cases hc : fsLookup (fsRemove fs dfn) h.baseFilename with
      | none =>
        have hs := fsLookup_isSome_of_exists (fsRemove fs dfn) h.baseFilename
          (by rw [hsb]; exact hbase)
        rw [hc] at hs
        exact absurd hs (by simp)
      | some c =>
        rw [fsLookup_append]
        have hnone : fsLookup (fsRemove (fsRemove fs dfn) h.baseFilename) dfn = none := by
          rw [fsLookup_fsRemove_ne (fsRemove fs dfn) h.baseFilename dfn hne]
          exact fsLookup_fsRemove_self fs dfn
        rw [hnone, ← hlb, hc]
        exact (fsLookup_singleton_self dfn c).symm ▸ rfl
    · intro n hn1 hn2
      show fsLookup (reopenStep h fsA).1 n = _
      rw [fsLookup_reopenStep_ne h fsA n hn1, ← hfsA,
        fsLookup_rotateFile_ne _ _ _ _ hn1 hn2,
        fsLookup_fsRemove_ne fs dfn n hn2]
  · rw [if_neg he] at hfsA
    rw [if_neg he, if_neg he] at htrA
    refine ⟨?_, ?_, ?_, ?_⟩
    · show removesOf (trA ++ (reopenStep h fsA).2.1) = _
      rw [removesOf_append, removesOf_reopenStep, List.append_nil, ← htrA,
        removesOf_append, rotateFile_trace]
      have hr2 : removesOf
          (if fsExists fs h.baseFilename then
            [Ev.renameEv h.baseFilename dfn] else []) = [] := by
        split <;> rfl
      rw [hr2, if_neg he]
      rfl
    · show renamesOf (trA ++ (reopenStep h fsA).2.1) = _
      rw [renamesOf_append, renamesOf_reopenStep, List.append_nil, ← htrA,
        renamesOf_append, rotateFile_trace]
      cases hb : fsExists fs h.baseFilename <;> simp [renamesOf]
    · intro hbase
      show fsLookup (reopenStep h fsA).1 dfn = _
      rw [fsLookup_reopenStep_ne h fsA dfn hne, ← hfsA]
      unfold rotateFile
      rw [if_pos hbase]
      show fsLookup (fsRename fs h.baseFilename dfn) dfn = _
      unfold fsRename
      cases hc : fsLookup fs h.baseFilename with
      | none =>
        have hs := fsLookup_isSome_of_exists fs h.baseFilename hbase
        rw [hc] at hs
        exact absurd hs (by simp)
      | some c =>
        rw [fsLookup_append]
        have hnone : fsLookup (fsRemove fs h.baseFilename) dfn = none := by
          rw [fsLookup_fsRemove_ne fs h.baseFilename dfn hne]
          exact fsLookup_none_of_not_exists fs dfn (by simpa using he)
        rw [hnone]
        exact (fsLookup_singleton_self dfn c).symm ▸ rfl
    · intro n hn1 hn2
      show fsLookup (reopenStep h fsA).1 n = _
      rw [fsLookup_reopenStep_ne h fsA n hn1, ← hfsA,
        fsLookup_rotateFile_ne _ _ _ _ hn1 hn2]

/-- Witness for C7 (amended) at a concrete overwrite-mode rollover. -/
theorem c7_overwrite_witness :
    removesOf [Ev.renameEv "b" "b.9", Ev.openEv "b"] =
        (if fsExists [("b", "c0")] "b.9" then ["b.9"] else []) ∧
      renamesOf [Ev.renameEv "b" "b.9", Ev.openEv "b"] =
        (if fsExists [("b", "c0")] hRet0.baseFilename then
          [(hRet0.baseFilename, "b.9")] else []) ∧
      (fsExists [("b", "c0")] hRet0.baseFilename = true →
        fsLookup [("b.9", "c0"), ("b", "")] "b.9" =
          fsLookup [("b", "c0")] hRet0.baseFilename) ∧
      (∀ n, n ≠ hRet0.baseFilename → n ≠ "b.9" →
        fsLookup [("b.9", "c0"), ("b", "")] n = fsLookup [("b", "c0")] n) :=
  c7_overwrite hRet0 [("b", "c0")] dstOff fmtNum fmtNum 10 11 1 1
    ({ hRet0 with rolloverAt := 11 }, [("b.9", "c0"), ("b", "")],
     [Ev.renameEv "b" "b.9", Ev.openEv "b"])
    "b.9" (by decide) (by decide) (by decide)

/-- C8, counterexample: the claim says invalid (e.g. negative) threshold,
retention count or interval make construction fail with ConfigError. The
code performs no such validation: this configuration with negative size
threshold, negative retention count and negative interval constructs a
handler without any error. -/
theorem c8_cex :
    cfgNeg.maxBytes < 0 ∧ cfgNeg.backupCount < 0 ∧ cfgNeg.interval < 0 ∧
      (init cfgNeg [] 42).isSome = true := by
  refine ⟨by decide, by decide, by decide, by decide⟩

/-- C8, amended: construction validates only the time-unit string (the
inherited timed initialiser raises ValueError for an unrecognised `when`);
the size threshold, retention count and interval are not validated, and any
values — negative ones included — are stored as given and produce a
handler. -/
theorem c8_no_validation (cfg : Config) (fs : Fs) (cr0 secs : Int)
    (hw : whenSeconds (strToUpper cfg.whenArg) = some secs) :
    ∃ out, init cfg fs cr0 = some out ∧
      out.1.maxBytes = cfg.maxBytes ∧ out.1.backupCount = cfg.backupCount ∧
      out.1.interval = secs * cfg.interval := by
  unfold init
  rw [hw]
  cases hh : cfg.header with
  | none => exact ⟨_, rfl, rfl, rfl, rfl⟩
  | some hd =>
    show ∃ out,
      (if cfg.delay = true then
        some (initHandler cfg secs cr0, (initOpenFs cfg fs).1, (initOpenFs cfg fs).2)
      else
        some (initHandler cfg secs cr0,
          fsAppend (initOpenFs cfg fs).1 cfg.filename (hd ++ "\n"),
          (initOpenFs cfg fs).2 ++ [Ev.fileWrite (hd ++ "\n")])) = some out ∧
      out.1.maxBytes = cfg.maxBytes ∧ out.1.backupCount = cfg.backupCount ∧
      out.1.interval = secs * cfg.interval
    by_cases hdl : cfg.delay = true
    · rw [if_pos hdl]
      exact ⟨_, rfl, rfl, rfl, rfl⟩
    · rw [if_neg hdl]
      exact ⟨_, rfl, rfl, rfl, rfl⟩

/-- Witness for C8 (amended) at the negative configuration. -/
theorem c8_no_validation_witness :
    ∃ out, init cfgNeg [] 42 = some out ∧
      out.1.maxBytes = cfgNeg.maxBytes ∧
      out.1.backupCount = cfgNeg.backupCount ∧
      out.1.interval = 86400 * cfgNeg.interval :=
  c8_no_validation cfgNeg [] 42 86400 (by decide)

end SpaceTime
